import Mathlib

/-!
Verification of the LumiSync device-protocol layer and sync engine.

The Python source is shallowly embedded: pure functions become Lean
functions, Python `int()` truncation becomes `pyInt` on exact rationals
(floats are modelled as exact rational arithmetic), fallible code is
modelled with explicit outcome types, and the threaded session controller
becomes an explicit transition system.  Functions that live in the
`utils`/`connection` modules (absent from the sources at hand) are
modelled from the specification and marked as such in their doc comments.
-/

/-- An RGB triple as produced by the screen samplers (natural channels). -/
abbrev RGB : Type := ℕ × ℕ × ℕ

/-- An RGB triple of Python ints (may leave 0..255 under interpolation). -/
abbrev RGBi : Type := ℤ × ℤ × ℤ

/-- Python `int()` applied to a (here: exact rational) float value:
truncation toward zero. -/
def pyInt (q : ℚ) : ℤ := if 0 ≤ q then ⌊q⌋ else -⌊-q⌋

/- ### Rotation (`lumisync/sync/monitor.py`, `_apply_rotation`) -/

/-- The `rotation_map` dictionary of `_apply_rotation`:
`{0: [0,1,2,3], 90: [2,0,3,1], 180: [3,2,1,0], 270: [1,3,0,2]}`;
a key outside the table yields `none` (the `rotation not in rotation_map`
branch). -/
def rotation_map (rotation : ℕ) : Option (List ℕ) :=
  if rotation = 0 then some [0, 1, 2, 3]
  else if rotation = 90 then some [2, 0, 3, 1]
  else if rotation = 180 then some [3, 2, 1, 0]
  else if rotation = 270 then some [1, 3, 0, 2]
  else none

/-- Python `_apply_rotation(colors, rotation)`: lists whose length is not 4 are
returned unchanged; an unknown rotation falls back to the identity; `0`
returns the list unchanged; otherwise the list is re-indexed by the
mapping (`[colors[i] for i in mapping]`). -/
def apply_rotation (colors : List RGB) (rotation : ℕ) : List RGB :=
  if colors.length ≠ 4 then colors
  else
    match rotation_map rotation with
    | none => colors
    | some mapping =>
      if rotation = 0 then colors
      else mapping.map (fun i => colors.getD i (0, 0, 0))

/-- C10: for every color list whose length is not exactly 4 and every
rotation value, `_apply_rotation` returns the list unchanged. -/
theorem apply_rotation_non4 (colors : List RGB) (rotation : ℕ)
    (h : colors.length ≠ 4) : apply_rotation colors rotation = colors := by
  unfold apply_rotation
  rw [if_pos h]

theorem apply_rotation_non4_w :
    ([((1 : ℕ), (2 : ℕ), (3 : ℕ))] : List RGB).length ≠ 4 ∧
      apply_rotation [(1, 2, 3)] 90 = [(1, 2, 3)] :=
  ⟨by decide, apply_rotation_non4 [(1, 2, 3)] 90 (by decide)⟩

/-- C8: for each rotation in `{0, 90, 180, 270}` the rotation step on a
4-color list is a permutation of the 4 positions; rotation by `0` is the
identity; any other rotation value falls back to the identity. -/
theorem apply_rotation_bijective :
    (∀ r, (r = 0 ∨ r = 90 ∨ r = 180 ∨ r = 270) →
      ∃ π : Equiv.Perm (Fin 4), ∀ a b c d : RGB,
        apply_rotation [a, b, c, d] r =
          (List.finRange 4).map fun i => [a, b, c, d].getD (π i) (0, 0, 0))
    ∧ (∀ colors, apply_rotation colors 0 = colors)
    ∧ (∀ r colors, ¬(r = 0 ∨ r = 90 ∨ r = 180 ∨ r = 270) →
        apply_rotation colors r = colors) := by
  refine ⟨?_, ?_, ?_⟩
  · intro r hr
    rcases hr with rfl | rfl | rfl | rfl
    · exact ⟨Equiv.refl (Fin 4), fun a b c d => rfl⟩
    · refine ⟨⟨![2, 0, 3, 1], ![1, 3, 0, 2], ?_, ?_⟩, fun a b c d => rfl⟩
      · intro x; fin_cases x <;> rfl
      · intro x; fin_cases x <;> rfl
    · refine ⟨⟨![3, 2, 1, 0], ![3, 2, 1, 0], ?_, ?_⟩, fun a b c d => rfl⟩
      · intro x; fin_cases x <;> rfl
      · intro x; fin_cases x <;> rfl
    · refine ⟨⟨![1, 3, 0, 2], ![2, 0, 3, 1], ?_, ?_⟩, fun a b c d => rfl⟩
      · intro x; fin_cases x <;> rfl
      · intro x; fin_cases x <;> rfl
  · intro colors
    unfold apply_rotation
    by_cases h : colors.length ≠ 4
    · rw [if_pos h]
    · rw [if_neg h]
      rfl
  · intro r colors hr
    push_neg at hr
    obtain ⟨h0, h90, h180, h270⟩ := hr
    unfold apply_rotation
    have hmap : rotation_map r = none := by
      unfold rotation_map
      rw [if_neg h0, if_neg h90, if_neg h180, if_neg h270]
    by_cases h : colors.length ≠ 4
    · rw [if_pos h]
    · rw [if_neg h, hmap]

theorem apply_rotation_bijective_w :
    apply_rotation [((1 : ℕ), (2 : ℕ), (3 : ℕ)), (4, 5, 6), (7, 8, 9), (10, 11, 12)] 0 =
        [(1, 2, 3), (4, 5, 6), (7, 8, 9), (10, 11, 12)] ∧
      apply_rotation [((1 : ℕ), (2 : ℕ), (3 : ℕ)), (4, 5, 6), (7, 8, 9), (10, 11, 12)] 45 =
        [(1, 2, 3), (4, 5, 6), (7, 8, 9), (10, 11, 12)] ∧
      ∃ π : Equiv.Perm (Fin 4), ∀ a b c d : RGB,
        apply_rotation [a, b, c, d] 90 =
          (List.finRange 4).map fun i => [a, b, c, d].getD (π i) (0, 0, 0) :=
  ⟨apply_rotation_bijective.2.1 _,
   apply_rotation_bijective.2.2 45 _ (by decide),
   apply_rotation_bijective.1 90 (by decide)⟩

/- ### Frame codec (wire packet and base64 transport)

`utils.convert_colors` is absent from the sources at hand; the packet
layout is modelled from the specification (sections 4.1 and 6) and is the
one checked byte for byte by `tests/debug_encoding.py`. -/

/-- The base64 alphabet of RFC 4648 (standard), as character codes. -/
def b64char (i : ℕ) : ℕ :=
  if i < 26 then 65 + i
  else if i < 52 then 97 + (i - 26)
  else if i < 62 then 48 + (i - 52)
  else if i = 62 then 43
  else 47

/-- Inverse lookup for the base64 alphabet. -/
def b64inv (c : ℕ) : ℕ :=
  if 65 ≤ c ∧ c ≤ 90 then c - 65
  else if 97 ≤ c ∧ c ≤ 122 then 26 + (c - 97)
  else if 48 ≤ c ∧ c ≤ 57 then 52 + (c - 48)
  else if c = 43 then 62
  else 63

/-- Base64 encoding of a byte list (Python `base64.b64encode`), with the
usual `=` (code 61) padding. -/
def b64encode : List ℕ → List ℕ
  | [] => []
  | [a] => [b64char (a / 4), b64char (a % 4 * 16), 61, 61]
  | [a, b] => [b64char (a / 4), b64char (a % 4 * 16 + b / 16), b64char (b % 16 * 4), 61]
  | a :: b :: c :: rest =>
    b64char (a / 4) :: b64char (a % 4 * 16 + b / 16) :: b64char (b % 16 * 4 + c / 64) ::
      b64char (c % 64) :: b64encode rest

/-- Base64 decoding of a character-code list (Python `base64.b64decode`)
on well-formed input: padding may only occur in the final quartet. -/
def b64decode : List ℕ → List ℕ
  | w :: x :: y :: z :: rest =>
    if y = 61 then [b64inv w * 4 + b64inv x / 16]
    else if z = 61 then
      [b64inv w * 4 + b64inv x / 16, b64inv x % 16 * 16 + b64inv y / 4]
    else
      (b64inv w * 4 + b64inv x / 16) :: (b64inv x % 16 * 16 + b64inv y / 4) ::
        (b64inv y % 4 * 64 + b64inv z) :: b64decode rest
  | _ => []

theorem b64inv_b64char : ∀ i, i < 64 → b64inv (b64char i) = i := by decide

theorem b64char_ne_61 : ∀ i, i < 64 → b64char i ≠ 61 := by decide

/-- Decoding inverts encoding on byte lists. -/
theorem b64_roundtrip : ∀ l : List ℕ, (∀ x ∈ l, x < 256) → b64decode (b64encode l) = l
  | [] => fun _ => rfl
  | [a] => fun h => by
    have ha : a < 256 := h a (by simp)
    simp only [b64encode, b64decode, if_true]
    rw [b64inv_b64char _ (by omega), b64inv_b64char _ (by omega)]
    simp only [List.cons.injEq, and_true]
    omega
  | [a, b] => fun h => by
    have ha : a < 256 := h a (by simp)
    have hb : b < 256 := h b (by simp)
    have hy : b64char (b % 16 * 4) ≠ 61 := b64char_ne_61 _ (by omega)
    simp only [b64encode, b64decode]
    rw [if_neg hy, if_true]
    rw [b64inv_b64char _ (by omega), b64inv_b64char _ (by omega),
      b64inv_b64char _ (by omega)]
    simp only [List.cons.injEq, and_true]
    omega
  | a :: b :: c :: rest => fun h => by
    have ha : a < 256 := h a (by simp)
    have hb : b < 256 := h b (by simp)
    have hc : c < 256 := h c (by simp)
    have hy : b64char (b % 16 * 4 + c / 64) ≠ 61 := b64char_ne_61 _ (by omega)
    have hz : b64char (c % 64) ≠ 61 := b64char_ne_61 _ (by omega)
    have ih : b64decode (b64encode rest) = rest :=
      b64_roundtrip rest (fun x hx => h x (by simp; tauto))
    simp only [b64encode, b64decode]
    rw [if_neg hy, if_neg hz]
    rw [b64inv_b64char _ (by omega), b64inv_b64char _ (by omega),
      b64inv_b64char _ (by omega), b64inv_b64char _ (by omega), ih]
    simp only [List.cons.injEq, and_true]
    omega

/-- XOR-fold of a byte list, the checksum discipline of the wire packet
(`checksum ^= byte` over every byte, starting from 0). -/
def xorFold (l : List ℕ) : ℕ := l.foldl (fun acc b => acc ^^^ b) 0

/-- Modelled from the spec: `utils.convert_colors` is absent from the
sources; sections 4.1 and 6 fix the pre-transport layout as a 5-byte
header constant, one length byte, three bytes per color in R,G,B order
and a trailing checksum byte equal to the XOR of every byte written so
far.  The header byte values themselves are not given, so the packet is
parameterised by them. -/
def razerPacket (header : List ℕ) (colors : List RGB) : List ℕ :=
  let body := header ++ [colors.length] ++ colors.flatMap (fun c => [c.1, c.2.1, c.2.2])
  body ++ [xorFold body]

/-- Modelled from the spec: `utils.convert_colors` base64-encodes the
packet for transport (section 4.1, confirmed by `tests/debug_encoding.py`
which base64-decodes its output). -/
def convert_colors (header : List ℕ) (colors : List RGB) : List ℕ :=
  b64encode (razerPacket header colors)

theorem xor_lt_256 {a b : ℕ} (ha : a < 256) (hb : b < 256) : a ^^^ b < 256 := by
  have h : Nat.bitwise bne a b < 2 ^ 8 :=
    Nat.bitwise_lt (by norm_num [ha]) (by norm_num [hb])
  simpa using h

theorem xorFold_lt_256 (l : List ℕ) (h : ∀ x ∈ l, x < 256) : xorFold l < 256 := by
  unfold xorFold
  have key : ∀ (l : List ℕ) (acc : ℕ), acc < 256 → (∀ x ∈ l, x < 256) →
      l.foldl (fun acc b => acc ^^^ b) acc < 256 := by
    intro l
    induction l with
    | nil => intro acc hacc _; simpa using hacc
    | cons x xs ih =>
      intro acc hacc hl
      simp only [List.foldl_cons]
      exact ih _ (xor_lt_256 hacc (hl x (by simp))) (fun y hy => hl y (by simp [hy]))
  exact key l 0 (by norm_num) h

theorem packetBody_bytes_lt (header : List ℕ) (colors : List RGB)
    (hh : ∀ b ∈ header, b < 256) (hlen : colors.length ≤ 255)
    (hc : ∀ c ∈ colors, c.1 < 256 ∧ c.2.1 < 256 ∧ c.2.2 < 256) :
    ∀ x ∈ header ++ [colors.length] ++ colors.flatMap (fun c => [c.1, c.2.1, c.2.2]),
      x < 256 := by
  intro x hx
  simp only [List.mem_append, List.mem_singleton, List.mem_flatMap] at hx
  rcases hx with (hx | rfl) | ⟨c, hcmem, hcx⟩
  · exact hh x hx
  · omega
  · obtain ⟨h1, h2, h3⟩ := hc c hcmem
    simp only [List.mem_cons, List.not_mem_nil, or_false] at hcx
    rcases hcx with rfl | rfl | rfl <;> assumption

theorem razerPacket_bytes_lt (header : List ℕ) (colors : List RGB)
    (hh : ∀ b ∈ header, b < 256) (hlen : colors.length ≤ 255)
    (hc : ∀ c ∈ colors, c.1 < 256 ∧ c.2.1 < 256 ∧ c.2.2 < 256) :
    ∀ x ∈ razerPacket header colors, x < 256 := by
  intro x hx
  unfold razerPacket at hx
  rw [List.mem_append] at hx
  rcases hx with hx | hx
  · exact packetBody_bytes_lt header colors hh hlen hc x hx
  · rw [List.mem_singleton] at hx
    subst hx
    exact xorFold_lt_256 _ (packetBody_bytes_lt header colors hh hlen hc)

/-- C1: for every color list of length at most 255 with byte channels,
the encoded wire packet, once base64-decoded, has its final byte equal to
the bitwise XOR-fold of every preceding byte of the packet. -/
theorem convert_colors_checksum (header : List ℕ) (colors : List RGB)
    (hh5 : header.length = 5) (hh : ∀ b ∈ header, b < 256)
    (hlen : colors.length ≤ 255)
    (hc : ∀ c ∈ colors, c.1 < 256 ∧ c.2.1 < 256 ∧ c.2.2 < 256) :
    (b64decode (convert_colors header colors)).getLast? =
      some (xorFold (b64decode (convert_colors header colors)).dropLast) := by
  have hrt : b64decode (convert_colors header colors) = razerPacket header colors :=
    b64_roundtrip _ (razerPacket_bytes_lt header colors hh hlen hc)
  rw [hrt]
  unfold razerPacket
  rw [List.getLast?_concat, List.dropLast_concat]

theorem convert_colors_checksum_w :
    ([187, 0, 32, 176, 1] : List ℕ).length = 5 ∧
      (b64decode (convert_colors [187, 0, 32, 176, 1] [(255, 255, 255)])).getLast? =
        some (xorFold (b64decode (convert_colors [187, 0, 32, 176, 1]
          [(255, 255, 255)])).dropLast) :=
  ⟨rfl, convert_colors_checksum [187, 0, 32, 176, 1] [(255, 255, 255)]
    rfl (by decide) (by decide) (by decide)⟩

/- ### Interpolator (`lumisync/sync/monitor.py`, `smooth_transition`) -/

/-- Modelled from the spec: `utils.lerp` lives in the absent `utils`
module; section 4.5 gives the per-channel formula
`v = start + (end - start) * t`. -/
def lerp (a b t : ℚ) : ℚ := a + (b - a) * t

/-- One channel of one step of `smooth_transition`'s loop:
`int(lerp(prev/255, next/255, step/steps) * 255)`.  The `colour.Color`
RGB/HSL round-trip of the source is modelled as exact arithmetic. -/
def interpChannel (p c : ℕ) (step steps : ℕ) : ℤ :=
  pyInt (lerp ((p : ℚ) / 255) ((c : ℚ) / 255) ((step : ℚ) / (steps : ℚ)) * 255)

/-- The frame `interpolated_colors` computed at one step of
`smooth_transition` (the loop walks index `i` over two equally long color
lists). -/
def interpFrame (prev next : List RGB) (step steps : ℕ) : List RGBi :=
  List.zipWith (fun p c =>
    (interpChannel p.1 c.1 step steps,
     interpChannel p.2.1 c.2.1 step steps,
     interpChannel p.2.2 c.2.2 step steps)) prev next

theorem interpChannel_zero (p c : ℕ) (steps : ℕ) :
    interpChannel p c 0 steps = p := by
  unfold interpChannel lerp pyInt
  rw [Nat.cast_zero, zero_div, mul_zero, add_zero, div_mul_cancel₀ _ (by norm_num)]
  rw [if_pos (by positivity)]
  exact Int.floor_natCast p

/-- C4: for every pair of equal-length color sequences the interpolation
loop's frame at step 0 is per-channel exactly the start sequence. -/
theorem interpFrame_zero (prev next : List RGB) (steps : ℕ)
    (hlen : prev.length = next.length) (hsteps : 0 < steps) :
    interpFrame prev next 0 steps =
      prev.map (fun p => ((p.1 : ℤ), (p.2.1 : ℤ), (p.2.2 : ℤ))) := by
  induction prev generalizing next with
  | nil => simp [interpFrame]
  | cons p ps ih =>
    cases next with
    | nil => simp at hlen
    | cons c cs =>
      simp only [interpFrame, List.zipWith_cons_cons, List.map_cons] at ih ⊢
      rw [interpChannel_zero, interpChannel_zero, interpChannel_zero]
      rw [ih cs (by simpa using hlen)]

theorem interpFrame_zero_w :
    ([((10 : ℕ), (20 : ℕ), (30 : ℕ)), (0, 255, 7)] : List RGB).length =
        ([((1 : ℕ), (2 : ℕ), (3 : ℕ)), (4, 5, 6)] : List RGB).length ∧
      interpFrame [(10, 20, 30), (0, 255, 7)] [(1, 2, 3), (4, 5, 6)] 0 3 =
        [((10 : ℤ), (20 : ℤ), (30 : ℤ)), (0, 255, 7)] :=
  ⟨rfl, interpFrame_zero [(10, 20, 30), (0, 255, 7)] [(1, 2, 3), (4, 5, 6)] 3
    rfl (by decide)⟩

/- ### Abort behavior of `smooth_transition`'s step loop -/

/-- The `for step in range(steps)` loop of `smooth_transition`: each
iteration attempts a send; on an exception the handler logs and
**re-raises**, ending the loop.  `sendOk step` says whether the send at
`step` succeeds; the value is the list of steps actually attempted,
starting from `step`. -/
def transitionRun (sendOk : ℕ → Bool) : ℕ → ℕ → List ℕ
  | 0, _ => []
  | rem + 1, step =>
    step :: (if sendOk step then transitionRun sendOk rem (step + 1) else [])

/-- The steps attempted by one `smooth_transition` call with `steps`
steps. -/
def transitionAttempts (steps : ℕ) (sendOk : ℕ → Bool) : List ℕ :=
  transitionRun sendOk steps 0

/-- C6 counterexample: with 3 steps and a send failure at step 1, the
loop attempts only steps 0 and 1 — it does not attempt all steps of
`range(steps)` as the claim states. -/
theorem smooth_transition_abort_cex :
    transitionAttempts 3 (fun s => !(s == 1)) = [0, 1] ∧
      transitionAttempts 3 (fun s => !(s == 1)) ≠ List.range 3 := by decide

theorem transitionRun_all (sendOk : ℕ → Bool) :
    ∀ rem start, (∀ s, start ≤ s → s < start + rem → sendOk s = true) →
      transitionRun sendOk rem start = List.range' start rem := by
  intro rem
  induction rem with
  | zero => intro start _; rfl
  | succ m ih =>
    intro start h
    simp only [transitionRun]
    rw [h start le_rfl (by omega)]
    rw [if_pos rfl, ih (start + 1) (fun s h1 h2 => h s (by omega) (by omega))]
    rfl

theorem transitionRun_abort (sendOk : ℕ → Bool) :
    ∀ rem start k, start ≤ k → k < start + rem →
      (∀ s, start ≤ s → s < k → sendOk s = true) → sendOk k = false →
      transitionRun sendOk rem start = List.range' start (k + 1 - start) := by
  intro rem
  induction rem with
  | zero => intro start k h1 h2; omega
  | succ m ih =>
    intro start k h1 h2 h3 h4
    simp only [transitionRun]
    by_cases hs : start = k
    · subst hs
      rw [h4]
      simp
    · have hok : sendOk start = true := h3 start le_rfl (by omega)
      rw [hok, if_pos rfl]
      rw [ih (start + 1) k (by omega) (by omega)
        (fun s hs1 hs2 => h3 s (by omega) hs2) h4]
      have hk : k + 1 - start = (k + 1 - (start + 1)) + 1 := by omega
      rw [hk, List.range'_succ]

/-- C6 amended: a send failure at a step of `smooth_transition` aborts
the remaining steps of the transition (the handler re-raises): if all
sends succeed the loop attempts every step of `range(steps)`, and if the
first failure is at step `k < steps` it attempts exactly steps
`0 .. k` and stops. -/
theorem smooth_transition_abort (steps : ℕ) (sendOk : ℕ → Bool) :
    ((∀ s, s < steps → sendOk s = true) →
      transitionAttempts steps sendOk = List.range steps)
    ∧ (∀ k, k < steps → (∀ s, s < k → sendOk s = true) → sendOk k = false →
        transitionAttempts steps sendOk = List.range (k + 1)) := by
  constructor
  · intro h
    unfold transitionAttempts
    rw [transitionRun_all sendOk steps 0 (fun s _ h2 => h s (by omega))]
    rw [List.range_eq_range']
  · intro k hk h3 h4
    unfold transitionAttempts
    rw [transitionRun_abort sendOk steps 0 k (by omega) (by omega)
      (fun s _ h2 => h3 s h2) h4]
    rw [List.range_eq_range']
    norm_num

theorem smooth_transition_abort_w :
    transitionAttempts 3 (fun _ => true) = List.range 3 ∧
      transitionAttempts 3 (fun s => !(s == 2)) = List.range 3 :=
  ⟨(smooth_transition_abort 3 (fun _ => true)).1 (fun s _ => rfl),
   (smooth_transition_abort 3 (fun s => !(s == 2))).2 2 (by decide)
     (by decide) (by decide)⟩

/- ### Grid sampling (`lumisync/sync/monitor.py`, `_sample_grid`) -/

/-- A captured screen: dimensions plus a pixel function. -/
structure Screen where
  width : ℕ
  height : ℕ
  pix : ℕ → ℕ → RGB

/-- Python `cols = int(np.sqrt(num_colors))`: float square root truncated, i.e.
the integer square root. -/
def gridCols (n : ℕ) : ℕ := Nat.sqrt n

/-- Python `rows = (num_colors + cols - 1) // cols`: ceiling division. -/
def gridRows (n : ℕ) : ℕ := (n + gridCols n - 1) / gridCols n

/-- The color sampled from grid cell `(row, col)`: the code crops the
cell `[int(col*cell_width), int((col+1)*cell_width)) ×
[int(row*cell_height), int((row+1)*cell_height))` (`cell_width =
width/cols` as an exact rational) and reads the pixel at half the
cropped size, the cell's center pixel. -/
def cellColor (s : Screen) (cols rows row col : ℕ) : RGB :=
  let x1 := col * s.width / cols
  let x2 := (col + 1) * s.width / cols
  let y1 := row * s.height / rows
  let y2 := (row + 1) * s.height / rows
  s.pix (x1 + (x2 - x1) / 2) (y1 + (y2 - y1) / 2)

/-- The `(row, col)` pairs visited by the two nested loops, row-major. -/
def gridCells (rows cols : ℕ) : List (ℕ × ℕ) :=
  (List.range rows).flatMap (fun row => (List.range cols).map (fun col => (row, col)))

/-- One iteration of `_sample_grid`'s cell loop: stop appending once
`len(colors) >= num_colors` (the `break` re-checked at every cell),
otherwise append the cell's center color. -/
def gridStep (s : Screen) (n cols rows : ℕ) (acc : List RGB) (rc : ℕ × ℕ) :
    List RGB :=
  if n ≤ acc.length then acc else acc ++ [cellColor s cols rows rc.1 rc.2]

/-- Python `_sample_grid(screen, num_colors)`. -/
def sample_grid (s : Screen) (n : ℕ) : List RGB :=
  (gridCells (gridRows n) (gridCols n)).foldl
    (gridStep s n (gridCols n) (gridRows n)) []

/-- The grid sampler as the claim words it: `cols = round(sqrt(n))`
(nearest integer), `rows = ceil(n / cols)`, center pixel of each cell in
row-major order, truncated to `n` colors. -/
def roundSqrt (n : ℕ) : ℕ :=
  if n ≤ Nat.sqrt n * Nat.sqrt n + Nat.sqrt n then Nat.sqrt n else Nat.sqrt n + 1

/-- Grid sampling following the claim's stated formula, for comparison
with `sample_grid`. -/
def sample_grid_claim (s : Screen) (n : ℕ) : List RGB :=
  let cols := roundSqrt n
  let rows := (n + cols - 1) / cols
  ((gridCells rows cols).map (fun rc => cellColor s cols rows rc.1 rc.2)).take n

/-- A 12×12 test screen whose pixel at `(x, y)` is `(x, y, 0)`. -/
def testScreen : Screen := ⟨12, 12, fun x y => (x, y, 0)⟩

/-- C5 counterexample: at `n = 8` the code uses `cols = int(sqrt(8)) = 2`
(truncation) while the claim's `round(sqrt(8)) = 3`, and the sampled
colors differ on a concrete screen. -/
theorem sample_grid_cex :
    gridCols 8 = 2 ∧ roundSqrt 8 = 3 ∧
      sample_grid testScreen 8 ≠ sample_grid_claim testScreen 8 := by
  have hs : Nat.sqrt 8 = 2 := by norm_num
  simp only [sample_grid, sample_grid_claim, gridRows, gridCols, roundSqrt, hs]
  decide

theorem gridFold_take (s : Screen) (n cols rows : ℕ) :
    ∀ (cells : List (ℕ × ℕ)) (acc : List RGB),
      cells.foldl (gridStep s n cols rows) acc =
        acc ++ (cells.map (fun rc => cellColor s cols rows rc.1 rc.2)).take
          (n - acc.length) := by
  intro cells
  induction cells with
  | nil => intro acc; simp
  | cons rc cs ih =>
    intro acc
    simp only [List.foldl_cons, List.map_cons, gridStep]
    by_cases h : n ≤ acc.length
    · rw [if_pos h, ih acc]
      have h0 : n - acc.length = 0 := by omega
      rw [h0]
      simp
    · rw [if_neg h, ih (acc ++ [cellColor s cols rows rc.1 rc.2])]
      have hm : n - acc.length = (n - (acc.length + 1)) + 1 := by omega
      rw [hm, List.take_succ_cons]
      simp

theorem gridCells_length : ∀ rows cols, (gridCells rows cols).length = rows * cols := by
  intro rows cols
  induction rows with
  | zero => simp [gridCells]
  | succ m ih =>
    unfold gridCells at ih ⊢
    rw [List.range_succ, List.flatMap_append, List.length_append, ih]
    simp [Nat.succ_mul]

theorem grid_capacity (n : ℕ) (hn : 4 < n) : n ≤ gridRows n * gridCols n := by
  have hc : 1 ≤ gridCols n := by
    unfold gridCols
    have := Nat.sqrt_pos.mpr (show 0 < n by omega)
    omega
  unfold gridRows
  have key : gridCols n * ((n + gridCols n - 1) / gridCols n) +
      (n + gridCols n - 1) % gridCols n = n + gridCols n - 1 :=
    Nat.div_add_mod _ _
  have hmod : (n + gridCols n - 1) % gridCols n < gridCols n :=
    Nat.mod_lt _ (by omega)
  calc n ≤ gridCols n * ((n + gridCols n - 1) / gridCols n) := by omega
    _ = (n + gridCols n - 1) / gridCols n * gridCols n := Nat.mul_comm _ _

/-- C5 amended: for `n > 4` the grid sampler partitions the screen into
`cols × rows` cells with `cols = int(sqrt(n))` (truncated, not rounded)
and `rows = ceil(n/cols)`, samples the center pixel of each cell in
row-major order, and returns exactly `n` colors, truncating surplus
cells. -/
theorem sample_grid_amended (s : Screen) (n : ℕ) (hn : 4 < n) :
    sample_grid s n =
        ((gridCells (gridRows n) (gridCols n)).map
          (fun rc => cellColor s (gridCols n) (gridRows n) rc.1 rc.2)).take n
      ∧ (sample_grid s n).length = n := by
  have heq : sample_grid s n =
      ((gridCells (gridRows n) (gridCols n)).map
        (fun rc => cellColor s (gridCols n) (gridRows n) rc.1 rc.2)).take n := by
    unfold sample_grid
    rw [gridFold_take]
    simp
  refine ⟨heq, ?_⟩
  rw [heq, List.length_take, List.length_map, gridCells_length]
  exact Nat.min_eq_left (grid_capacity n hn)

theorem sample_grid_amended_w :
    sample_grid testScreen 8 =
        ((gridCells (gridRows 8) (gridCols 8)).map
          (fun rc => cellColor testScreen (gridCols 8) (gridRows 8) rc.1 rc.2)).take 8
      ∧ (sample_grid testScreen 8).length = 8 :=
  sample_grid_amended testScreen 8 (by decide)

/- ### Music mode amplitude mapping
(`gui/controllers/sync_controller.py`, `start_music_sync` loop) -/

/-- The `match amp` of the music loop ("custom wave_color"): amplitude
below 0.04 feeds the red channel, `0.04 <= amp < 0.08` the green one,
anything else the blue one; the channel value is `int(amp * 255)`. -/
def wave_color (amp : ℚ) : List ℤ :=
  if amp < 4 / 100 then [pyInt (amp * 255), 0, 0]
  else if 4 / 100 ≤ amp ∧ amp < 8 / 100 then [0, pyInt (amp * 255), 0]
  else [0, 0, pyInt (amp * 255)]

/-- One iteration's rolling-buffer update:
`COLORS.current.append(color)` then `COLORS.current.pop(0)`. -/
def musicBufferStep (buffer : List (List ℤ)) (amp : ℚ) : List (List ℤ) :=
  (buffer ++ [wave_color amp]).drop 1

/-- C7 counterexample: at amplitude 0 (a legal amplitude in `[0,1]`) the
emitted color is `[0, 0, 0]`: it has no nonzero channel, not exactly
one. -/
theorem wave_color_cex :
    (0 : ℚ) ≤ 0 ∧ (0 : ℚ) ≤ 1 ∧
      ¬ ((wave_color 0).filter (fun v => !(v == 0))).length = 1 := by
  refine ⟨le_refl 0, by norm_num, ?_⟩
  have h : wave_color 0 = [0, 0, 0] := by norm_num [wave_color, pyInt]
  rw [h]
  decide

theorem filter_nonzero_le_one (x : ℤ) :
    (([x, 0, 0] : List ℤ).filter (fun v => !(v == 0))).length ≤ 1
    ∧ (([0, x, 0] : List ℤ).filter (fun v => !(v == 0))).length ≤ 1
    ∧ (([0, 0, x] : List ℤ).filter (fun v => !(v == 0))).length ≤ 1 := by
  by_cases hx : x = 0
  · subst hx; decide
  · have hb : (x == 0) = false := by simp [hx]
    simp [List.filter, hb]

/-- C7 amended: for every amplitude in `[0,1]` the music loop emits a
color with at most one nonzero channel — the red channel if `a < 0.04`,
green if `0.04 <= a < 0.08`, blue if `a >= 0.08` — whose value is
`int(a*255)` (which is 0 whenever `a*255 < 1`, so the designated channel
may itself be zero), appends it to the rolling buffer and drops the
oldest entry, leaving the buffer length unchanged. -/
theorem wave_color_bands (a : ℚ) (h0 : 0 ≤ a) (h1 : a ≤ 1) :
    ((wave_color a).filter (fun v => !(v == 0))).length ≤ 1
    ∧ (a < 4 / 100 → wave_color a = [⌊a * 255⌋, 0, 0])
    ∧ (4 / 100 ≤ a → a < 8 / 100 → wave_color a = [0, ⌊a * 255⌋, 0])
    ∧ (8 / 100 ≤ a → wave_color a = [0, 0, ⌊a * 255⌋])
    ∧ ∀ buffer : List (List ℤ),
        (musicBufferStep buffer a).length = buffer.length := by
  have hpy : pyInt (a * 255) = ⌊a * 255⌋ := by
    unfold pyInt
    rw [if_pos (by positivity)]
  refine ⟨?_, ?_, ?_, ?_, ?_⟩
  · unfold wave_color
    rcases lt_or_le a (4 / 100) with h | h
    · rw [if_pos h]
      exact (filter_nonzero_le_one _).1
    · rw [if_neg (by linarith)]
      rcases lt_or_le a (8 / 100) with h8 | h8
      · rw [if_pos ⟨h, h8⟩]
        exact (filter_nonzero_le_one _).2.1
      · rw [if_neg (by intro hc; linarith [hc.2])]
        exact (filter_nonzero_le_one _).2.2
  · intro h
    unfold wave_color
    rw [if_pos h, hpy]
  · intro h4 h8
    unfold wave_color
    rw [if_neg (by linarith), if_pos ⟨h4, h8⟩, hpy]
  · intro h8
    unfold wave_color
    rw [if_neg (by linarith), if_neg (by intro hc; linarith [hc.2]), hpy]
  · intro buffer
    unfold musicBufferStep
    rw [List.length_drop, List.length_append]
    simp

theorem wave_color_bands_w :
    wave_color (1 / 20) = [0, ⌊((1 : ℚ) / 20) * 255⌋, 0] ∧
      (musicBufferStep [[0, 0, 0], [1, 2, 3]] (1 / 20)).length = 2 :=
  ⟨(wave_color_bands (1 / 20) (by norm_num) (by norm_num)).2.2.1
      (by norm_num) (by norm_num),
   (wave_color_bands (1 / 20) (by norm_num) (by norm_num)).2.2.2.2
      [[0, 0, 0], [1, 2, 3]]⟩

/- ### Action mode (`lumisync/sync/action.py`, `ActionSyncMode`) -/

/-- Constant `FLASH_THRESHOLD = 0.3`: brightness increase that triggers a flash. -/
def FLASH_THRESHOLD : ℚ := 3 / 10

/-- Constant `FLASH_DURATION = 0.5`: flash window length in seconds. -/
def FLASH_DURATION : ℚ := 1 / 2

/-- Constant `FLASH_FADE_TIME = 0.2`: fade length in seconds. -/
def FLASH_FADE_TIME : ℚ := 1 / 5

/-- The mutable fields of `ActionSyncMode` used by `generate_colors`. -/
structure ActionState where
  lastBrightness : ℚ
  flashEndTime : ℚ
  flashColor : List RGBi
  normalColors : List RGBi

/-- Python `ActionSyncMode._interpolate_colors(start, end, progress)`:
per-channel `int(start + (end - start) * progress)` over `zip`ped
lists. -/
def interpolate_colors (startColors endColors : List RGBi) (progress : ℚ) :
    List RGBi :=
  List.zipWith (fun s e =>
    (pyInt ((s.1 : ℚ) + ((e.1 : ℚ) - (s.1 : ℚ)) * progress),
     pyInt ((s.2.1 : ℚ) + ((e.2.1 : ℚ) - (s.2.1 : ℚ)) * progress),
     pyInt ((s.2.2 : ℚ) + ((e.2.2 : ℚ) - (s.2.2 : ℚ)) * progress)))
    startColors endColors

/-- Python `ActionSyncMode.generate_colors` at wall-clock time `t`.  The
screen-derived inputs — current brightness, the screen's most saturated
color and the ambient (edge) colors — are passed as parameters; the
returned pair is the updated object state and the emitted color list. -/
def generate_colors_action (st : ActionState) (t curBrightness : ℚ)
    (vibrant : RGBi) (ambient : List RGBi) (numLeds : ℕ) :
    ActionState × List RGBi :=
  if t < st.flashEndTime then
    let elapsed := t - (st.flashEndTime - FLASH_DURATION)
    let fadeProgress := 1 - elapsed / FLASH_FADE_TIME
    if 0 < fadeProgress then
      (st, interpolate_colors st.flashColor st.normalColors (1 - max 0 fadeProgress))
    else
      (st, st.normalColors)
  else if FLASH_THRESHOLD < curBrightness - st.lastBrightness then
    let fc := List.replicate numLeds vibrant
    ({ st with
        flashColor := fc
        normalColors := ambient
        flashEndTime := t + FLASH_DURATION }, fc)
  else
    ({ st with
        normalColors := ambient
        lastBrightness := curBrightness }, ambient)

/-- C3: the claim (and the meaning of `FLASH_DURATION`, documented in the
source as "how long flash color stays") requires the flash color to be
held while more than the final 0.2 s fade window remains before the
timer.  With a flash armed at time 0 (`flash_end_time = 0.5`, flash color
`(255,0,0)`, ambient `(0,0,0)`), at `t = 0.1` — 0.4 s before the timer,
well outside the fade window — the code already returns the half-faded
`(127,0,0)`, and at `t = 0.25` — 0.25 s before the timer — it already
returns the ambient color: the code fades during the *first* 0.2 s after
arming instead of the final 0.2 s before the timer elapses. -/
theorem action_flash_fades_early :
    (FLASH_FADE_TIME < (1 : ℚ) / 2 - 1 / 10 ∧
      (generate_colors_action ⟨1 / 2, 1 / 2, [(255, 0, 0)], [(0, 0, 0)]⟩
        (1 / 10) 0 (0, 0, 0) [] 1).2 = [(127, 0, 0)])
    ∧ (FLASH_FADE_TIME < (1 : ℚ) / 2 - 1 / 4 ∧
      (generate_colors_action ⟨1 / 2, 1 / 2, [(255, 0, 0)], [(0, 0, 0)]⟩
        (1 / 4) 0 (0, 0, 0) [] 1).2 = [(0, 0, 0)]) := by
  constructor
  · constructor
    · norm_num [FLASH_FADE_TIME]
    · rw [generate_colors_action, if_pos (by norm_num [FLASH_DURATION])]
      rw [if_pos (by norm_num [FLASH_DURATION, FLASH_FADE_TIME])]
      have hmax : max (0 : ℚ) (1 - (1 / 10 - (1 / 2 - FLASH_DURATION)) / FLASH_FADE_TIME)
          = 1 / 2 := by
        rw [max_eq_right (by norm_num [FLASH_DURATION, FLASH_FADE_TIME])]
        norm_num [FLASH_DURATION, FLASH_FADE_TIME]
      simp only [interpolate_colors, List.zipWith_cons_cons, List.zipWith_nil_right, hmax]
      norm_num [pyInt]
  · constructor
    · norm_num [FLASH_FADE_TIME]
    · rw [generate_colors_action, if_pos (by norm_num [FLASH_DURATION])]
      rw [if_neg (by norm_num [FLASH_DURATION, FLASH_FADE_TIME])]

/- ### SessionController (`gui/controllers/sync_controller.py`) -/

/-- The five sync modes a `start_*` call can select. -/
inductive SessionMode
  | monitor
  | music
  | edge
  | zone
  | action
deriving DecidableEq

/-- The controller state relevant to session ownership: the set of
worker threads still running (`alive`, by spawn id), the thread the
controller tracks as `self.sync_thread`, `self.current_sync_mode`, and a
fresh-id counter for spawns. -/
structure Ctrl where
  alive : List ℕ
  syncThread : Option ℕ
  current : Option SessionMode
  nextId : ℕ
deriving DecidableEq

/-- A fresh controller: no worker, no mode. -/
def ctrlInit : Ctrl := ⟨[], none, none, 0⟩

/-- Python `self.sync_thread and self.sync_thread.is_alive()`. -/
def threadAliveB (s : Ctrl) : Bool :=
  match s.syncThread with
  | none => false
  | some t => decide (t ∈ s.alive)

/-- Python `stop_sync()`: if the tracked thread is alive, set the stop event and
join with a 2 s timeout.  `joinOk` is the oracle for whether the worker
observes the stop flag and exits within the timeout; on timeout the code
logs a warning and proceeds with the worker still alive.  Either way
`current_sync_mode` is reset to `None`. -/
def stopSync (joinOk : Bool) (s : Ctrl) : Ctrl :=
  match s.syncThread with
  | none => s
  | some t =>
    if t ∈ s.alive then
      { s with
          alive := if joinOk then s.alive.erase t else s.alive
          current := none }
    else s

/-- The shared prologue and spawn of every `start_*_sync` method: bail
out when the device list is empty; otherwise stop a live previous
worker, then spawn the new worker and record the new mode. -/
def startOp (m : SessionMode) (hasDevices joinOk : Bool) (s : Ctrl) : Ctrl :=
  if hasDevices = false then s
  else
    let s1 := if threadAliveB s then stopSync joinOk s else s
    { s1 with
        alive := s1.alive ++ [s1.nextId]
        syncThread := some s1.nextId
        current := some m
        nextId := s1.nextId + 1 }

/-- Observable controller events: a `start_*` call, a `stop_sync` call,
and a worker loop exiting on its own (its `finally` clause resets
`current_sync_mode`). -/
inductive CtrlEvent
  | start (m : SessionMode) (hasDevices joinOk : Bool)
  | stop (joinOk : Bool)
  | exitWorker (id : ℕ)

/-- One controller transition. -/
def ctrlStep (s : Ctrl) : CtrlEvent → Ctrl
  | .start m hd jk => startOp m hd jk s
  | .stop jk => stopSync jk s
  | .exitWorker id =>
    if id ∈ s.alive then
      { s with
          alive := s.alive.erase id
          current := none }
    else s

/-- States reachable from a fresh controller. -/
inductive CtrlReachable : Ctrl → Prop
  | init : CtrlReachable ctrlInit
  | step (s : Ctrl) (e : CtrlEvent) :
      CtrlReachable s → CtrlReachable (ctrlStep s e)

/-- C2 counterexample: start monitor sync, then start music sync while
the monitor worker fails to exit within the 2 s join timeout (the code
logs "did not stop cleanly" and proceeds): the reachable state has two
workers alive, so "two workers are never simultaneously active" is
false. -/
theorem sync_controller_two_alive_cex :
    ¬ ∀ s : Ctrl, CtrlReachable s → s.alive.length ≤ 1 := by
  intro h
  have hreach : CtrlReachable (ctrlStep (ctrlStep ctrlInit
      (.start .monitor true true)) (.start .music true false)) :=
    CtrlReachable.step _ _ (CtrlReachable.step _ _ CtrlReachable.init)
  exact absurd (h _ hreach) (by decide)

/-- Whether an event's bounded join (if any) succeeds. -/
def joinSucceeds : CtrlEvent → Bool
  | .start _ _ jk => jk
  | .stop jk => jk
  | .exitWorker _ => true

/-- Run a list of events from a fresh controller. -/
def runTrace (evts : List CtrlEvent) : Ctrl := evts.foldl ctrlStep ctrlInit

/-- The single-flight invariant: at most one live worker, and every live
worker is the tracked `sync_thread`. -/
def CtrlInv (s : Ctrl) : Prop :=
  s.alive.length ≤ 1 ∧ ∀ x ∈ s.alive, s.syncThread = some x

theorem singleton_of_len_le_one {l : List ℕ} {t : ℕ}
    (hlen : l.length ≤ 1) (hm : t ∈ l) : l = [t] := by
  match l with
  | [] => simp at hm
  | [x] =>
    simp at hm
    subst hm
    rfl
  | x :: y :: rest => simp at hlen

theorem stopSync_none (jk : Bool) (s : Ctrl) (h : s.syncThread = none) :
    stopSync jk s = s := by
  unfold stopSync
  rw [h]

theorem stopSync_some (jk : Bool) (s : Ctrl) (t : ℕ) (h : s.syncThread = some t) :
    stopSync jk s =
      if t ∈ s.alive then
        { s with
            alive := if jk then s.alive.erase t else s.alive
            current := none }
      else s := by
  unfold stopSync
  rw [h]

theorem ctrlStep_inv (s : Ctrl) (e : CtrlEvent) (hs : CtrlInv s)
    (hj : joinSucceeds e = true) : CtrlInv (ctrlStep s e) := by
  obtain ⟨hlen, hown⟩ := hs
  cases e with
  | start m hd jk =>
    simp only [joinSucceeds] at hj
    subst hj
    simp only [ctrlStep, startOp]
    by_cases hhd : hd = false
    · rw [if_pos hhd]
      exact ⟨hlen, hown⟩
    · rw [if_neg hhd]
      have hempty : (if threadAliveB s then stopSync true s else s).alive = [] := by
        by_cases hA : threadAliveB s = true
        · rw [if_pos hA]
          unfold threadAliveB at hA
          cases hst : s.syncThread with
          | none => rw [hst] at hA; simp at hA
          | some t =>
            rw [hst] at hA
            simp only [decide_eq_true_eq] at hA
            rw [stopSync_some true s t hst, if_pos hA]
            simp [singleton_of_len_le_one hlen hA]
        · rw [if_neg hA]
          rcases hae : s.alive with _ | ⟨x, rest⟩
          · rfl
          · exfalso
            apply hA
            unfold threadAliveB
            rw [hown x (by rw [hae]; simp)]
            simp [hae]
      constructor
      · simp [hempty]
      · intro x hx
        simp only [hempty, List.nil_append, List.mem_singleton] at hx
        subst hx
        rfl
  | stop jk =>
    simp only [joinSucceeds] at hj
    subst hj
    simp only [ctrlStep]
    cases hst : s.syncThread with
    | none =>
      rw [stopSync_none true s hst]
      exact ⟨hlen, hown⟩
    | some t =>
      rw [stopSync_some true s t hst]
      by_cases hmem : t ∈ s.alive
      · rw [if_pos hmem]
        constructor
        · simp [singleton_of_len_le_one hlen hmem]
        · intro x hx
          simp [singleton_of_len_le_one hlen hmem] at hx
      · rw [if_neg hmem]
        exact ⟨hlen, hown⟩
  | exitWorker id =>
    simp only [ctrlStep]
    by_cases hmem : id ∈ s.alive
    · rw [if_pos hmem]
      constructor
      · exact le_trans (s.alive.erase_sublist id).length_le hlen
      · intro x hx
        exact hown x (List.mem_of_mem_erase hx)
    · rw [if_neg hmem]
      exact ⟨hlen, hown⟩

/-- C2 amended: every `start_*` stops a live previous worker before
spawning, so as long as every bounded join succeeds (the old worker
exits within the 2 s timeout) at most one worker is ever alive; when a
join times out the old worker can remain alive next to the new one (the
race the source logs as "did not stop cleanly"). -/
theorem sync_controller_single_flight (evts : List CtrlEvent)
    (h : ∀ e ∈ evts, joinSucceeds e = true) :
    (runTrace evts).alive.length ≤ 1 := by
  have key : ∀ (l : List CtrlEvent) (s : Ctrl), CtrlInv s →
      (∀ e ∈ l, joinSucceeds e = true) → CtrlInv (l.foldl ctrlStep s) := by
    intro l
    induction l with
    | nil => intro s hs _; simpa using hs
    | cons e es ih =>
      intro s hs hl
      simp only [List.foldl_cons]
      exact ih _ (ctrlStep_inv s e hs (hl e (by simp)))
        (fun x hx => hl x (by simp [hx]))
  exact (key evts ctrlInit ⟨by simp [ctrlInit], by simp [ctrlInit]⟩ h).1

theorem sync_controller_single_flight_w :
    (∀ e ∈ ([.start .monitor true true, .stop true,
        .start .music true true] : List CtrlEvent), joinSucceeds e = true) ∧
      (runTrace [.start .monitor true true, .stop true,
        .start .music true true]).alive.length ≤ 1 :=
  ⟨by decide, sync_controller_single_flight _ (by decide)⟩

/- ### Discovery listen (`lumisync/devices.py`, `listen`) -/

/-- The outcome of `connection.listen(server)` as seen by
`devices.listen`.  Modelled from the spec: the `connection` module is
absent from the sources; section 4.3 specifies that the gather collects
every reply received before the timeout elapses — zero replies yield an
empty list — while a network error surfaces as an exception. -/
inductive ListenOutcome
  | replies (msgs : List String)
  | raisesError

/-- Python `devices.listen(server)`: returns whatever `connection.listen`
gathered; the `except` handler turns any raised error into `[]` instead
of propagating it. -/
def devicesListen : ListenOutcome → List String
  | .replies msgs => msgs
  | .raisesError => []

/-- C9: a listen that gathers zero replies within the timeout window
returns an empty list, and a listen that raises a network error also
returns an empty list — the caller never sees an exception. -/
theorem devicesListen_empty :
    devicesListen (.replies []) = [] ∧ devicesListen .raisesError = [] :=
  ⟨rfl, rfl⟩
